import Mathlib

/-!
Verification of the `sv-language-index` crate (files `src/lib.rs`,
`src/position.rs`, `src/semantic.rs`) against its natural-language
specification.

The development is a shallow embedding of the Rust code:

* machine integers (`u32`, `usize`, `u16`) are modelled as `Nat`; the concrete
  inputs appearing in the theorems are far below any overflow boundary, and
  every place where Rust subtraction could underflow is noted at the
  definition it concerns;
* Rust `panic!` / `todo!` / failed `unwrap` are modelled as the `Panic` error
  of an `Except Panic _` result that propagates exactly the way an unwinding
  panic does (the computation stops at the panicking operation);
* `HashMap`s whose iteration order is never observed are modelled as
  functions, `HashMap`s that the code iterates are modelled as association
  lists with distinct keys, the generational arena (which never deletes
  items) is modelled as a list addressed by position.

External parser types (`sv_parser::SyntaxTree` and friends) are modelled by
the exact projections the indexing code reads from them: each token carries
its `Locate { offset, line, len }` metadata, and the `get_str_trim`
capability is modelled by storing the extracted name next to the node it
would be extracted from.
-/

/-- `sv_parser::Locate` token metadata: absolute byte offset, 1-based line
number, and byte length, exactly the three fields the indexer reads. -/
structure Locate where
  offset : Nat
  line : Nat
  len : Nat
deriving Repr, DecidableEq

/-- `Position` from `src/position.rs`: zero-based row/column (`u32` fields
modelled as `Nat`). -/
structure Position where
  row : Nat
  col : Nat
deriving Repr, DecidableEq

/-- `Range` from `src/position.rs`. The `end` field keeps the source name. -/
structure Range where
  begin : Position
  «end» : Position
deriving Repr, DecidableEq

/-- `DocumentPosition` from `src/position.rs`; `PathBuf` modelled as `String`. -/
structure DocumentPosition where
  document : String
  position : Position
deriving Repr, DecidableEq

/-- `DocumentRange` from `src/position.rs`. -/
structure DocumentRange where
  document : String
  range : Range
deriving Repr, DecidableEq

/-- The derived `Ord` on `Position` (Rust `#[derive(PartialOrd, Ord)]` on
`struct Position { row, col }` compares lexicographically by field order).
Used by `DataPerFile::insert_semantic` through `l.begin.cmp(&location.begin)`. -/
def posCmp (a b : Position) : Ordering :=
  if a.row < b.row then .lt
  else if b.row < a.row then .gt
  else if a.col < b.col then .lt
  else if b.col < a.col then .gt
  else .eq

/-- Strict lexicographic order on positions (the proposition corresponding to
`posCmp _ _ = .lt`). -/
def posLt (a b : Position) : Prop :=
  a.row < b.row ∨ (a.row = b.row ∧ a.col < b.col)

instance (a b : Position) : Decidable (posLt a b) := by
  unfold posLt; infer_instance

/-- `impl PartialOrd<Position> for Range` from `src/position.rs`
(`partial_cmp` always returns `Some`, so it is modelled as a total function
into `Ordering`): the point-containment comparison used by
`Db::get_item_on_location`'s binary search. -/
def rangeCmpPos (r : Range) (p : Position) : Ordering :=
  if r.«end».row < p.row then .lt
  else if p.row < r.begin.row then .gt
  else if r.begin.row = p.row ∧ r.begin.col < p.col then .lt
  else if r.«end».row = p.row ∧ r.«end».col < p.col then .gt
  else .eq

/-- The three `panic!`-class outcomes of the indexing code:
`insert_semantic`'s duplicate-start `panic!`, `locate_to_position`'s
`line_index mismatched` `panic!`, and the `todo!()` arms of the tree walk.
In Rust each of these unwinds out of `Db::update`; here they are the error
of an `Except` that the embedded computations propagate. -/
inductive Panic where
  | duplicateLocation
  | lineIndexMismatch
  | unsupportedConstruct
deriving Repr, DecidableEq

/-- `LineIndex::locate_to_position` from `src/position.rs`:
`row = line - 1`, `col = offset - line_start[row]`, panicking
(`Panic.lineIndexMismatch`) when the line has no table entry.
`locate.offset - start` is `usize` subtraction; for every token the parser
produces, `offset ≥ start` holds, and all inputs used below satisfy it,
so `Nat` truncation never differs from the Rust value. -/
def locateToPosition (lineIndex : List Nat) (locate : Locate) : Except Panic Position :=
  match lineIndex.get? (locate.line - 1) with
  | some start => .ok ⟨locate.line - 1, locate.offset - start⟩
  | none => .error .lineIndexMismatch

/-- The loop of `LineIndex::offset_to_position` from `src/position.rs`,
over `self.0.iter().enumerate()`: sets `line = idx`, breaks when
`accumulated > offset`, otherwise updates `col = offset - accumulated`.
Returns the final `(col, line)` pair. -/
def offsetLoop (offset : Nat) : List (Nat × Nat) → Nat → Nat → (Nat × Nat)
  | [], col, line => (col, line)
  | (idx, accumulated) :: rest, col, _line =>
    if offset < accumulated then (col, idx)
    else offsetLoop offset rest (offset - accumulated) idx

/-- `LineIndex::offset_to_position` from `src/position.rs`. The final
`(line - 1) as _` is `usize` subtraction: in Rust it underflows when
`line = 0` (possible only for the one-entry table of a file with no
newline token); the theorems below only evaluate it at inputs with
`line ≥ 1`, where `Nat` subtraction agrees with Rust. -/
def offsetToPosition (lineIndex : List Nat) (offset : Nat) : Position :=
  let (col, line) := offsetLoop offset lineIndex.enum 0 0
  ⟨line - 1, col⟩

/-- Rust `str::split("\r\n")` specialised to the separator `"\r\n"` used by
`LineIndex::new`: leftmost, non-overlapping matches; strings modelled as
`List Char` (every character the theorems feed it is ASCII, so `char`
positions and byte positions coincide). -/
def splitCrlf : List Char → List (List Char)
  | [] => [[]]
  | [c] => [[c]]
  | c :: c2 :: rest =>
    if c = '\r' ∧ c2 = '\n' then [] :: splitCrlf rest
    else
      match splitCrlf (c2 :: rest) with
      | [] => [[c]]
      | h :: t => (c :: h) :: t

/-- Rust `str::split("\n")` specialised to the separator `"\n"` used by
`LineIndex::new`. -/
def splitLf : List Char → List (List Char)
  | [] => [[]]
  | c :: rest =>
    if c = '\n' then [] :: splitLf rest
    else
      match splitLf rest with
      | [] => [[c]]
      | h :: t => (c :: h) :: t

/-- The state of the `LineIndex::new` loops over one newline token: the
offsets pushed so far, the running `pos`, and the `first` flag. -/
structure LoopState where
  pushes : List Nat
  pos : Nat
  first : Bool
deriving Repr, DecidableEq

/-- The inner `for s in s.split("\n")` loop of `LineIndex::new`: for every
piece except the very first (tracked by `first`) it pushes the current
`pos`, then advances `pos` by `s.len() + 1`. -/
def innerLoop : List (List Char) → Nat → Bool → LoopState
  | [], pos, first => ⟨[], pos, first⟩
  | sub :: rest, pos, first =>
    let r := innerLoop rest (pos + sub.length + 1) false
    ⟨(if first then [] else [pos]) ++ r.pushes, r.pos, r.first⟩

/-- The outer `for s in newline_str.split("\r\n")` loop of `LineIndex::new`:
runs the inner loop on each piece and adds the extra `pos += 1` after it. -/
def outerLoop : List (List Char) → Nat → Bool → LoopState
  | [], pos, first => ⟨[], pos, first⟩
  | part :: rest, pos, first =>
    let r := innerLoop (splitLf part) pos first
    let r2 := outerLoop rest (r.pos + 1) r.first
    ⟨r.pushes ++ r2.pushes, r2.pos, r2.first⟩

/-- The offsets one `WhiteSpace::Newline` token contributes in
`LineIndex::new`, starting from `locate.offset` with `first = true`. -/
def newlinePushes (offset : Nat) (s : List Char) : List Nat :=
  (outerLoop (splitCrlf s) offset true).pushes

/-- A `WhiteSpace::Newline` token as `LineIndex::new` consumes it: its
`Locate` offset and the string `syntax_tree.get_str(locate)` returns. -/
structure NewlineToken where
  offset : Nat
  text : List Char
deriving Repr, DecidableEq

/-- `LineIndex::new` from `src/position.rs`: the table starts at `vec![0]`
and each newline token appends its pushes in traversal order. -/
def lineIndexNew (tokens : List NewlineToken) : List Nat :=
  0 :: (tokens.map fun tok => newlinePushes tok.offset tok.text).flatten

example : newlinePushes 5 ['\n'] = [6] := by decide
example : newlinePushes 5 ['\r', '\n'] = [7] := by decide
example : newlinePushes 5 ['\n', '\n'] = [6, 7] := by decide
example : newlinePushes 5 ['\r', '\n', '\r', '\n'] = [7, 9] := by decide
example : newlinePushes 5 ['\n', '\r', '\n'] = [6, 8] := by decide
example : newlinePushes 5 ['\r', '\n', '\n'] = [7, 8] := by decide
example : offsetToPosition [0, 6, 12] 7 = ⟨1, 1⟩ := by decide
example : offsetToPosition [0, 6] 6 = ⟨0, 0⟩ := by decide
example : locateToPosition [0, 6] ⟨6, 2, 5⟩ = .ok ⟨1, 0⟩ := rfl

/-- `semantic::Item` from `src/semantic.rs`. `ItemId`
(`generational_arena::Index`) is modelled as the item's position in the
arena: the per-file arena is created fresh by every `DataPerFile::new`, is
only ever pushed to, and is never deleted from, so indices are consecutive
naturals and the generation tag is constant. -/
inductive Item where
  | moduleIdentifier (module_name : String) (location : Range)
  | moduleInstance (module_name : Nat) (instance_name : Nat)
      (parameters : List Nat) (ports : List Nat) (location : Range)
  | unknownIdentifier (name : String) (location : Range)
deriving Repr, DecidableEq

/-- `Item::location` from `src/semantic.rs`. -/
def Item.location : Item → Range
  | .moduleIdentifier _ location => location
  | .moduleInstance _ _ _ _ location => location
  | .unknownIdentifier _ location => location

/-- True exactly on the `ModuleInstance` variant. -/
def Item.isInstance : Item → Bool
  | .moduleInstance _ _ _ _ _ => true
  | _ => false

/-- True on the `ModuleIdentifier` and `UnknownIdentifier` variants. -/
def Item.isIdentifierLike : Item → Bool
  | .moduleIdentifier _ _ => true
  | .unknownIdentifier _ _ => true
  | _ => false

/-- `Arena::insert`: push the item, return its index. -/
def arenaInsert (items : List Item) (it : Item) : List Item × Nat :=
  (items ++ [it], items.length)

/-- `Arena::get`. -/
def arenaGet (items : List Item) (id : Nat) : Option Item :=
  items.get? id

/-- The loop body of Rust `slice::binary_search_by` (the `core` library
implementation used by `Vec` since Rust 1.52): probe
`mid = left + (right - left) / 2`, move `left`/`right` on `Less`/`Greater`,
return `Ok(mid)` on `Equal`, and `Err(left)` once `left ≥ right`. The `fuel`
argument bounds the iteration count for structural recursion; every call
below supplies `l.length + 1` fuel, which exceeds the iteration count
because `right - left` strictly decreases each pass, so the `fuel = 0` and
`get? = none` fallbacks are unreachable. -/
def bsGo (f : α → Ordering) (l : List α) : Nat → Nat → Nat → Except Nat Nat
  | 0, left, _right => .error left
  | fuel + 1, left, right =>
    if left < right then
      let mid := left + (right - left) / 2
      match l.get? mid with
      | none => .error left
      | some x =>
        match f x with
        | .lt => bsGo f l fuel (mid + 1) right
        | .gt => bsGo f l fuel left mid
        | .eq => .ok mid
    else .error left

/-- Rust `slice::binary_search_by`. -/
def binarySearchBy (f : α → Ordering) (l : List α) : Except Nat Nat :=
  bsGo f l (l.length + 1) 0 l.length

/-- `Vec::insert(pos, x)`. -/
def insertAt (l : List α) (pos : Nat) (x : α) : List α :=
  l.take pos ++ x :: l.drop pos

/-- `HashMap::get` on the per-file `global_items: HashMap<String, ItemId>`,
modelled as an association list (the `Db::update` reconciliation iterates
this map, so the model must expose its entries, not just its lookups). -/
def lookupPF : List (String × Nat) → String → Option Nat
  | [], _ => none
  | (k, v) :: rest, n => if k = n then some v else lookupPF rest n

/-- `HashMap::insert` on the per-file `global_items`: replace the value if
the key is present, otherwise add the entry. -/
def insertPF (l : List (String × Nat)) (k : String) (v : Nat) : List (String × Nat) :=
  match l with
  | [] => [(k, v)]
  | (k', v') :: rest => if k' = k then (k, v) :: rest else (k', v') :: insertPF rest k v

/-- `DataPerFile` from `src/lib.rs`. -/
structure DataPerFile where
  line_index : List Nat
  items : List Item
  location_map : List (Range × Nat)
  global_items : List (String × Nat)
deriving Repr, DecidableEq

/-- `DataPerFile::get_location_of_node` from `src/lib.rs`: the begin
position of the node's `Locate` and an end on the same row `len` columns
later. -/
def getLocationOfNode (lineIndex : List Nat) (locate : Locate) : Except Panic Range :=
  match locateToPosition lineIndex locate with
  | .error e => .error e
  | .ok b => .ok ⟨b, ⟨b.row, b.col + locate.len⟩⟩

/-- `DataPerFile::insert_semantic` from `src/lib.rs`: binary-search
`location_map` by the new item's begin position; a hit is the
`"Already other semantic exists on same position"` `panic!`
(`Panic.duplicateLocation`); on a miss, push the item into the arena and
insert `(range, id)` at the returned position. -/
def insertSemantic (d : DataPerFile) (semantic : Item) : Except Panic (DataPerFile × Nat) :=
  let location := semantic.location
  match binarySearchBy (fun e => posCmp e.1.begin location.begin) d.location_map with
  | .ok _pos => .error .duplicateLocation
  | .error pos =>
    let (items', idx) := arenaInsert d.items semantic
    .ok ({ d with
            items := items',
            location_map := insertAt d.location_map pos (location, idx) }, idx)

/-- A module instantiation as `process_module_declaration` consumes it
(`ModuleOrGenerateItem::Module`): the referenced type name
(`item.nodes.1.nodes.0`, a `ModuleIdentifier`) and the first hierarchical
instance's `InstanceIdentifier` (`item.nodes.2.nodes.0.nodes.0.nodes.0`).
Each carries its `Locate` and the string `get_str_trim` extracts for it. -/
structure ModuleInstantiation where
  identifier : Locate × String
  instanceName : Locate × String
deriving Repr, DecidableEq

/-- `ModuleOrGenerateItem` from `sv_parser`, restricted to the payloads
`process_module_declaration` reads: the `Module` arm carries its
instantiation, the `todo!()` arms carry nothing. -/
inductive ModuleOrGenerateItem where
  | parameter
  | gate
  | udp
  | module (inst : ModuleInstantiation)
  | moduleItem
deriving Repr, DecidableEq

/-- `NonPortModuleItem` from `sv_parser`, with the payloads the walker
reads. -/
inductive NonPortModuleItem where
  | generateRegion
  | moduleOrGenerateItem (item : ModuleOrGenerateItem)
  | specifyBlock
  | specparam
  | programDeclaration
  | moduleDeclaration
  | interfaceDeclaration
  | timeunitsDeclaration
deriving Repr, DecidableEq

/-- `ModuleItem` from `sv_parser`: the non-ANSI body item list is filtered
down to its `NonPortModuleItem` arm; every other arm is skipped by the
`filter_map`. -/
inductive ModuleItem where
  | nonPortModuleItem (item : NonPortModuleItem)
  | portDeclaration
deriving Repr, DecidableEq

/-- `ModuleKeyword` from `sv_parser` (`Module` or `Macromodule`), carrying
the keyword token's `Locate`. -/
inductive ModuleKeyword where
  | module (locate : Locate)
  | macromodule (locate : Locate)
deriving Repr, DecidableEq

/-- The `match module_keyword` binding at the start of
`process_module_declaration`: the keyword token's `Locate` for either
variant. -/
def ModuleKeyword.locate : ModuleKeyword → Locate
  | .module keyword => keyword
  | .macromodule keyword => keyword

/-- The parts of a module header the walker reads: `header.nodes.1`
(the module keyword) and `header.nodes.3` (the module identifier with its
extracted name). -/
structure ModuleHeader where
  keyword : ModuleKeyword
  identifier : Locate × String
deriving Repr, DecidableEq

/-- `ModuleDeclaration` from `sv_parser`, with the projections the walker
reads: header, body items, the `endmodule` keyword's `Locate`
(`module.nodes.3.nodes.0`) and the optional end-label colon's `Locate`
(`module.nodes.4`, mapped to `symbol.nodes.0`). -/
inductive ModuleDeclaration where
  | nonansi (header : ModuleHeader) (items : List ModuleItem)
      (endKeyword : Locate) (endLabel : Option Locate)
  | ansi (header : ModuleHeader) (items : List NonPortModuleItem)
      (endKeyword : Locate) (endLabel : Option Locate)
  | wildcard
  | externNonansi
  | externAnsi
deriving Repr, DecidableEq

/-- `Description` from `sv_parser`: module declarations are processed, every
other description kind falls into the `_ => { /* not yet */ }` arm. -/
inductive Description where
  | moduleDeclaration (module : ModuleDeclaration)
  | other
deriving Repr, DecidableEq

/-- The two traversals the indexer performs over `sv_parser::SyntaxTree`:
the newline whitespace tokens (in traversal order, for `LineIndex::new`)
and the root `SourceText`'s description list (for `DataPerFile::new`). -/
structure SynTree where
  newlineTokens : List NewlineToken
  descriptions : List Description
deriving Repr, DecidableEq

/-- The `ModuleOrGenerateItem::Module` arm of `process_module_declaration`
(src/lib.rs lines 207-243): insert a `ModuleIdentifier` at the referenced
type name, an `UnknownIdentifier` at the instance name token, then push a
`ModuleInstance` into the arena only (no `insert_semantic`), whose location
is recomputed from the same `InstanceIdentifier` node
(`item.nodes.2.nodes.0.nodes.0.nodes.0`) that located the instance name. -/
def processModuleInstItem (d : DataPerFile) (inst : ModuleInstantiation) :
    Except Panic DataPerFile :=
  match getLocationOfNode d.line_index inst.identifier.1 with
  | .error e => .error e
  | .ok location =>
    match insertSemantic d (.moduleIdentifier inst.identifier.2 location) with
    | .error e => .error e
    | .ok (d, module_id) =>
      match getLocationOfNode d.line_index inst.instanceName.1 with
      | .error e => .error e
      | .ok location =>
        match insertSemantic d (.unknownIdentifier inst.instanceName.2 location) with
        | .error e => .error e
        | .ok (d, instance_name) =>
          match getLocationOfNode d.line_index inst.instanceName.1 with
          | .error e => .error e
          | .ok location =>
            .ok { d with
              items := (arenaInsert d.items
                (.moduleInstance module_id instance_name [] [] location)).1 }

/-- One iteration of the `for item in items` loop of
`process_module_declaration`: the `todo!()` arms are the
`Panic.unsupportedConstruct` abort, `ModuleOrGenerateItem::ModuleItem` is
skipped. -/
def processItem (d : DataPerFile) : NonPortModuleItem → Except Panic DataPerFile
  | .generateRegion => .error .unsupportedConstruct
  | .moduleOrGenerateItem item =>
    match item with
    | .parameter => .error .unsupportedConstruct
    | .gate => .error .unsupportedConstruct
    | .udp => .error .unsupportedConstruct
    | .module inst => processModuleInstItem d inst
    | .moduleItem => .ok d
  | .specifyBlock => .error .unsupportedConstruct
  | .specparam => .error .unsupportedConstruct
  | .programDeclaration => .error .unsupportedConstruct
  | .moduleDeclaration => .error .unsupportedConstruct
  | .interfaceDeclaration => .error .unsupportedConstruct
  | .timeunitsDeclaration => .error .unsupportedConstruct

/-- Fold of `processItem` over the body items grid. -/
def processItems (d : DataPerFile) : List NonPortModuleItem → Except Panic DataPerFile
  | [] => .ok d
  | item :: rest =>
    match processItem d item with
    | .error e => .error e
    | .ok d' => processItems d' rest

/-- `DataPerFile::process_module_declaration` from `src/lib.rs`: compute
the keyword-to-endmodule range, insert the declaration's
`ModuleIdentifier`, walk the body items, and finally register the module
name in the per-file `global_items`. -/
def processModuleDeclaration (d : DataPerFile) (module_keyword : ModuleKeyword)
    (identifier : Locate × String) (end_locate : Locate)
    (items : List NonPortModuleItem) : Except Panic DataPerFile :=
  let module_name := identifier.2
  let locate := module_keyword.locate
  match locateToPosition d.line_index locate with
  | .error e => .error e
  | .ok b =>
    match locateToPosition d.line_index end_locate with
    | .error e => .error e
    | .ok e =>
      match insertSemantic d (.moduleIdentifier module_name ⟨b, e⟩) with
      | .error er => .error er
      | .ok (d, module_id) =>
        match processItems d items with
        | .error er => .error er
        | .ok d =>
          .ok { d with global_items := insertPF d.global_items module_name module_id }

/-- One iteration of the `for desc in &source_text.nodes.2` loop of
`DataPerFile::new`: non-ANSI module bodies are filtered to their
`NonPortModuleItem`s, ANSI bodies are used as-is, the `end_locate` is the
end-label symbol when present and the `endmodule` keyword otherwise, and
the wildcard / extern arms are `todo!()`. -/
def processDescription (d : DataPerFile) : Description → Except Panic DataPerFile
  | .moduleDeclaration module =>
    match module with
    | .nonansi header items endKeyword endLabel =>
      let end_locate := endLabel.getD endKeyword
      let items' := items.filterMap fun item =>
        match item with
        | .nonPortModuleItem item => some item
        | _ => none
      processModuleDeclaration d header.keyword header.identifier end_locate items'
    | .ansi header items endKeyword endLabel =>
      processModuleDeclaration d header.keyword header.identifier
        (endLabel.getD endKeyword) items
    | .wildcard => .error .unsupportedConstruct
    | .externNonansi => .error .unsupportedConstruct
    | .externAnsi => .error .unsupportedConstruct
  | .other => .ok d

/-- Fold of `processDescription` over the root descriptions. -/
def processDescriptions (d : DataPerFile) :
    List Description → Except Panic DataPerFile
  | [] => .ok d
  | desc :: rest =>
    match processDescription d desc with
    | .error e => .error e
    | .ok d' => processDescriptions d' rest

/-- `DataPerFile::new` from `src/lib.rs`: build the `LineIndex`, start from
empty stores, and walk the root `SourceText`'s descriptions. -/
def DataPerFile.new (t : SynTree) : Except Panic DataPerFile :=
  processDescriptions
    { line_index := lineIndexNew t.newlineTokens, items := [],
      location_map := [], global_items := [] }
    t.descriptions

/-- `FileId` is a `u16` newtype; modelled as `Nat` (the `as u16` cast in
`path_to_fileid` never truncates for the file counts considered here). -/
abbrev FileId := Nat

/-- `Db` from `src/lib.rs`. `files: BiHashMap<PathBuf, FileId>` is an
association list in insertion order (both lookup directions are derived
from it); `data` and `global_items` are `HashMap`s whose iteration order
the code never observes, modelled as functions. -/
structure Db where
  files : List (String × FileId)
  data : FileId → Option DataPerFile
  global_items : String → Option (FileId × Nat)

/-- `Db::default()`. -/
def Db.empty : Db := ⟨[], fun _ => none, fun _ => none⟩

/-- `BiHashMap::get_by_left`. -/
def getByLeft : List (String × FileId) → String → Option FileId
  | [], _ => none
  | (p, id) :: rest, path => if p = path then some id else getByLeft rest path

/-- `BiHashMap::get_by_right`. -/
def getByRight : List (String × FileId) → FileId → Option String
  | [], _ => none
  | (p, id) :: rest, fid => if id = fid then some p else getByRight rest fid

/-- `Db::path_to_fileid`: reuse the existing id or assign
`files.len()` and insert the pair. -/
def pathToFileid (files : List (String × FileId)) (path : String) :
    FileId × List (String × FileId) :=
  match getByLeft files path with
  | some id => (id, files)
  | none => (files.length, files ++ [(path, files.length)])

/-- Remove every key of the old per-file `global_items` from the database
`global_items` (the `for old_module in old_data.global_items.keys()` loop of
`Db::update`; `HashMap::remove` keyed by name only). -/
def removeAll (g : String → Option (FileId × Nat)) :
    List String → (String → Option (FileId × Nat))
  | [] => g
  | k :: rest => removeAll (fun n => if n = k then none else g n) rest

/-- Insert every entry of the new per-file `global_items` as
`name ↦ (file_id, idx)` (the `for (new_module, idx) in &new_data.global_items`
loop of `Db::update`). -/
def insertAllG (g : String → Option (FileId × Nat)) (fid : FileId) :
    List (String × Nat) → (String → Option (FileId × Nat))
  | [] => g
  | (k, v) :: rest => insertAllG (fun n => if n = k then some (fid, v) else g n) fid rest

/-- `Db::update` from `src/lib.rs`: build the per-file index (a panic here
unwinds before the database is touched), resolve the `FileId`, swap the new
index in, remove the old index's names from the global table, then insert
the new index's names. -/
def Db.update (db : Db) (path : String) (syntax_tree : SynTree) :
    Except Panic (FileId × Db) :=
  match DataPerFile.new syntax_tree with
  | .error e => .error e
  | .ok data =>
    let (file_id, files') := pathToFileid db.files path
    let old_data := db.data file_id
    let data' := fun f => if f = file_id then some data else db.data f
    let g1 := match old_data with
      | some old => removeAll db.global_items (old.global_items.map Prod.fst)
      | none => db.global_items
    let g2 := insertAllG g1 file_id data.global_items
    .ok (file_id, { files := files', data := data', global_items := g2 })

/-- `Db::get_item_on_location` from `src/lib.rs`: binary-search the file's
`location_map` with the `Range`-vs-`Position` comparison and dereference the
hit's `ItemId` (the `unwrap`s on the two lookups cannot fail for an index
the search returned). -/
def getItemOnLocation (db : Db) (file_id : FileId) (position : Position) :
    Option Item :=
  match db.data file_id with
  | none => none
  | some data =>
    match binarySearchBy (fun e => rangeCmpPos e.1 position) data.location_map with
    | .error _ => none
    | .ok id =>
      match data.location_map.get? id with
      | none => none
      | some e => arenaGet data.items e.2

/-- `Db::get_module` from `src/lib.rs`. -/
def getModule (db : Db) (module_name : String) : Option (FileId × Item) :=
  match db.global_items module_name with
  | none => none
  | some (file_id, item_id) =>
    match db.data file_id with
    | none => none
    | some data =>
      match arenaGet data.items item_id with
      | none => none
      | some item => some (file_id, item)

/-- `Db::goto_definition` from `src/lib.rs`. -/
def Db.gotoDefinition (db : Db) (request_location : DocumentPosition) :
    Option DocumentRange :=
  match getByLeft db.files request_location.document with
  | none => none
  | some file_id =>
    match getItemOnLocation db file_id request_location.position with
    | none => none
    | some semantic =>
      let resolved : Option (FileId × Range) :=
        match semantic with
        | .moduleIdentifier module_name _ =>
          (getModule db module_name).map fun r => (r.1, r.2.location)
        | .moduleInstance _ instance_name _ _ _ =>
          match db.data file_id with
          | none => none
          | some data =>
            match arenaGet data.items instance_name with
            | none => none
            | some item => some (file_id, item.location)
        | .unknownIdentifier _ location => some (file_id, location)
      match resolved with
      | none => none
      | some (fid, location) =>
        match getByRight db.files fid with
        | none => none
        | some document => some ⟨document, location⟩

/-- The syntax tree of the one-line file
`module top; mod_a inst1(); endmodule` (`top.sv` of the spec's scenario):
`module` at offset 0, `top` at 7, `mod_a` at 12, `inst1` at 18,
`endmodule` at 27, no newline tokens. -/
def topTree : SynTree :=
  { newlineTokens := []
    descriptions := [.moduleDeclaration (.nonansi
      { keyword := .module ⟨0, 1, 6⟩, identifier := (⟨7, 1, 3⟩, "top") }
      [.nonPortModuleItem (.moduleOrGenerateItem (.module
        { identifier := (⟨12, 1, 5⟩, "mod_a")
          instanceName := (⟨18, 1, 5⟩, "inst1") }))]
      ⟨27, 1, 9⟩ none)] }

/-- The syntax tree of the one-line file `module mod_a; endmodule`
(`leaf.sv` of the spec's scenario): `module` at offset 0, `mod_a` at 7,
`endmodule` at 14. -/
def leafTree : SynTree :=
  { newlineTokens := []
    descriptions := [.moduleDeclaration (.nonansi
      { keyword := .module ⟨0, 1, 6⟩, identifier := (⟨7, 1, 5⟩, "mod_a") }
      [] ⟨14, 1, 9⟩ none)] }

/-- The per-file index built for `topTree` (the `.error` arm is dead: the
build succeeds, as the theorems below show by `rfl`). -/
def dpfTop : DataPerFile :=
  match DataPerFile.new topTree with
  | .ok d => d
  | .error _ => { line_index := [], items := [], location_map := [], global_items := [] }

example : DataPerFile.new topTree = .ok dpfTop := rfl
example : dpfTop.location_map =
    [(⟨⟨0, 0⟩, ⟨0, 27⟩⟩, 0), (⟨⟨0, 12⟩, ⟨0, 17⟩⟩, 1), (⟨⟨0, 18⟩, ⟨0, 23⟩⟩, 2)] := rfl
example : dpfTop.items =
    [.moduleIdentifier "top" ⟨⟨0, 0⟩, ⟨0, 27⟩⟩,
     .moduleIdentifier "mod_a" ⟨⟨0, 12⟩, ⟨0, 17⟩⟩,
     .unknownIdentifier "inst1" ⟨⟨0, 18⟩, ⟨0, 23⟩⟩,
     .moduleInstance 1 2 [] [] ⟨⟨0, 18⟩, ⟨0, 23⟩⟩] := rfl
example : dpfTop.global_items = [("top", 0)] := rfl

/-- The database reached by `update("top.sv", topTree)` then
`update("leaf.sv", leafTree)` on an empty database (the `.error` arm is
dead: both updates succeed). -/
def dbScenario : Db :=
  match Db.update Db.empty "top.sv" topTree with
  | .error _ => Db.empty
  | .ok (_, db1) =>
    match Db.update db1 "leaf.sv" leafTree with
    | .error _ => Db.empty
    | .ok (_, db2) => db2

example : dbScenario.files = [("top.sv", 0), ("leaf.sv", 1)] := rfl
example : dbScenario.global_items "mod_a" = some (1, 0) := rfl
example : dbScenario.global_items "top" = some (0, 0) := rfl
example : Db.gotoDefinition dbScenario ⟨"top.sv", ⟨0, 12⟩⟩ =
    some ⟨"leaf.sv", ⟨⟨0, 0⟩, ⟨0, 14⟩⟩⟩ := rfl
example : Db.gotoDefinition dbScenario ⟨"top.sv", ⟨0, 18⟩⟩ =
    some ⟨"top.sv", ⟨⟨0, 18⟩, ⟨0, 23⟩⟩⟩ := rfl

lemma posCmp_eq_lt {a b : Position} : posCmp a b = .lt ↔ posLt a b := by
  unfold posCmp posLt
  split_ifs with h1 h2 h3 h4 <;> simp <;> omega

lemma posCmp_eq_gt {a b : Position} : posCmp a b = .gt ↔ posLt b a := by
  unfold posCmp posLt
  split_ifs with h1 h2 h3 h4 <;> simp <;> omega

lemma posCmp_eq_eq {a b : Position} : posCmp a b = .eq ↔ a = b := by
  cases a with
  | mk arow acol =>
    cases b with
    | mk brow bcol =>
      unfold posCmp
      split_ifs with h1 h2 h3 h4 <;>
        simp only [Position.mk.injEq] <;> simp_all <;> omega

lemma posLt_trans {a b c : Position} (h1 : posLt a b) (h2 : posLt b c) : posLt a c := by
  unfold posLt at *; omega

lemma posLt_irrefl {a : Position} : ¬ posLt a a := by
  unfold posLt; omega

lemma posLt_ne {a b : Position} (h : posLt a b) : a ≠ b := by
  intro he; rw [he] at h; exact posLt_irrefl h

/-- Unfolding of one `bsGo` iteration. -/
lemma bsGo_succ (f : α → Ordering) (l : List α) (fuel left right : Nat) :
    bsGo f l (fuel + 1) left right =
    if left < right then
      match l.get? (left + (right - left) / 2) with
      | none => .error left
      | some x =>
        match f x with
        | .lt => bsGo f l fuel (left + (right - left) / 2 + 1) right
        | .gt => bsGo f l fuel left (left + (right - left) / 2)
        | .eq => .ok (left + (right - left) / 2)
    else .error left := rfl

/-- `bsGo` only ever returns `Ok` with an in-bounds probe index. -/
lemma bsGo_ok_lt {f : α → Ordering} {l : List α} :
    ∀ fuel left right m, right ≤ l.length →
      bsGo f l fuel left right = .ok m → m < l.length := by
  intro fuel
  induction fuel with
  | zero => intro left right m _ h; simp [bsGo] at h
  | succ fuel ih =>
    intro left right m hr h
    rw [bsGo_succ] at h
    by_cases hlr : left < right
    · rw [if_pos hlr] at h
      have hmid : left + (right - left) / 2 < right := by omega
      have hml : left + (right - left) / 2 < l.length := lt_of_lt_of_le hmid hr
      rw [List.get?_eq_getElem?, List.getElem?_eq_getElem hml] at h
      cases hcmp : f (l[left + (right - left) / 2]) with
      | lt => simp only [hcmp] at h; exact ih _ _ _ hr h
      | gt => simp only [hcmp] at h; exact ih _ _ _ (le_of_lt (lt_of_lt_of_le hmid hr)) h
      | eq => simp only [hcmp] at h; cases h; exact hml
    · rw [if_neg hlr] at h; cases h

/-- Correctness of `bsGo` on a list strictly sorted by `key`, searching with
the comparator `posCmp (key _) t` : an `Err(p)` answer splits the list into
a strict prefix with keys below `t` and a suffix with keys above `t`, and an
`Ok(m)` answer points at an element whose key is exactly `t`. -/
lemma bsGo_spec {α : Type _} (key : α → Position) (t : Position) (l : List α)
    (hs : List.Pairwise (fun a b => posLt (key a) (key b)) l) :
    ∀ fuel left right, right - left < fuel → left ≤ right → right ≤ l.length →
    (∀ i (hi : i < l.length), i < left → posLt (key l[i]) t) →
    (∀ i (hi : i < l.length), right ≤ i → posLt t (key l[i])) →
    (∀ p, bsGo (fun e => posCmp (key e) t) l fuel left right = .error p →
        p ≤ l.length ∧
        (∀ i (hi : i < l.length), i < p → posLt (key l[i]) t) ∧
        (∀ i (hi : i < l.length), p ≤ i → posLt t (key l[i]))) ∧
    (∀ m, bsGo (fun e => posCmp (key e) t) l fuel left right = .ok m →
        ∃ hm : m < l.length, key l[m] = t) := by
  intro fuel
  induction fuel with
  | zero => intro left right h1 _ _ _ _; omega
  | succ fuel ih =>
    intro left right h1 h2 h3 Hl Hr
    by_cases hlr : left < right
    · have hmid : left + (right - left) / 2 < right := by omega
      have hmidge : left ≤ left + (right - left) / 2 := by omega
      have hml : left + (right - left) / 2 < l.length := lt_of_lt_of_le hmid h3
      have hget : l.get? (left + (right - left) / 2) =
          some (l[left + (right - left) / 2]) := by
        rw [List.get?_eq_getElem?, List.getElem?_eq_getElem hml]
      cases hcmp : posCmp (key (l[left + (right - left) / 2])) t with
      | lt =>
        have hklt : posLt (key (l[left + (right - left) / 2])) t := posCmp_eq_lt.mp hcmp
        have heq : bsGo (fun e => posCmp (key e) t) l (fuel + 1) left right =
            bsGo (fun e => posCmp (key e) t) l fuel (left + (right - left) / 2 + 1) right := by
          rw [bsGo_succ, if_pos hlr, hget]; simp only [hcmp]
        rw [heq]
        refine ih (left + (right - left) / 2 + 1) right (by omega) (by omega) h3 ?_ Hr
        intro i hi hilt
        rcases Nat.lt_or_ge i (left + (right - left) / 2) with hc | hc
        · exact posLt_trans (List.pairwise_iff_getElem.mp hs i _ hi hml hc) hklt
        · have : i = left + (right - left) / 2 := by omega
          subst this; exact hklt
      | gt =>
        have hkgt : posLt t (key (l[left + (right - left) / 2])) := posCmp_eq_gt.mp hcmp
        have heq : bsGo (fun e => posCmp (key e) t) l (fuel + 1) left right =
            bsGo (fun e => posCmp (key e) t) l fuel left (left + (right - left) / 2) := by
          rw [bsGo_succ, if_pos hlr, hget]; simp only [hcmp]
        rw [heq]
        refine ih left (left + (right - left) / 2) (by omega) (by omega)
          (le_of_lt hml) Hl ?_
        intro i hi hile
        rcases Nat.lt_or_ge (left + (right - left) / 2) i with hc | hc
        · exact posLt_trans hkgt (List.pairwise_iff_getElem.mp hs _ i hml hi hc)
        · have : i = left + (right - left) / 2 := by omega
          subst this; exact hkgt
      | eq =>
        have heq : bsGo (fun e => posCmp (key e) t) l (fuel + 1) left right =
            .ok (left + (right - left) / 2) := by
          rw [bsGo_succ, if_pos hlr, hget]; simp only [hcmp]
        rw [heq]
        constructor
        · intro p hp; cases hp
        · intro m hm
          cases hm
          exact ⟨hml, posCmp_eq_eq.mp hcmp⟩
    · have heq : bsGo (fun e => posCmp (key e) t) l (fuel + 1) left right = .error left := by
        rw [bsGo_succ, if_neg hlr]
      rw [heq]
      have hlr' : left = right := by omega
      constructor
      · intro p hp
        cases hp
        exact ⟨le_trans (le_of_eq hlr') h3, Hl, fun i hi hle => Hr i hi (hlr' ▸ hle)⟩
      · intro m hm; cases hm

/-- `binarySearchBy` with the begin-position comparator, on a strictly
sorted list: the `Err` insertion point splits the keys around `t`. -/
lemma binarySearchBy_err_spec {α : Type _} (key : α → Position) (t : Position)
    (l : List α) (hs : List.Pairwise (fun a b => posLt (key a) (key b)) l)
    (p : Nat) (h : binarySearchBy (fun e => posCmp (key e) t) l = .error p) :
    p ≤ l.length ∧
    (∀ i (hi : i < l.length), i < p → posLt (key l[i]) t) ∧
    (∀ i (hi : i < l.length), p ≤ i → posLt t (key l[i])) :=
  ((bsGo_spec key t l hs (l.length + 1) 0 l.length (by omega) (by omega) le_rfl
    (by omega) (by omega)).1) p h

/-- `binarySearchBy` with the begin-position comparator, on a strictly
sorted list: an `Ok` answer names an element with key exactly `t`. -/
lemma binarySearchBy_ok_spec {α : Type _} (key : α → Position) (t : Position)
    (l : List α) (hs : List.Pairwise (fun a b => posLt (key a) (key b)) l)
    (m : Nat) (h : binarySearchBy (fun e => posCmp (key e) t) l = .ok m) :
    ∃ hm : m < l.length, key l[m] = t :=
  ((bsGo_spec key t l hs (l.length + 1) 0 l.length (by omega) (by omega) le_rfl
    (by omega) (by omega)).2) m h

/-- Inserting `x` at an `Err` insertion point whose prefix keys are below
`key x` and whose suffix keys are above it preserves strict sortedness. -/
lemma insertAt_pairwise {α : Type _} (key : α → Position) (l : List α) (x : α) (p : Nat)
    (hs : List.Pairwise (fun a b => posLt (key a) (key b)) l)
    (h1 : ∀ i (hi : i < l.length), i < p → posLt (key l[i]) (key x))
    (h2 : ∀ i (hi : i < l.length), p ≤ i → posLt (key x) (key l[i])) :
    List.Pairwise (fun a b => posLt (key a) (key b)) (insertAt l p x) := by
  unfold insertAt
  rw [List.pairwise_append]
  refine ⟨hs.sublist (List.take_sublist p l), ?_, ?_⟩
  · rw [List.pairwise_cons]
    refine ⟨?_, hs.sublist (List.drop_sublist p l)⟩
    intro b hb
    obtain ⟨j, hj, rfl⟩ := List.mem_iff_getElem.mp hb
    rw [List.getElem_drop]
    have hjl : p + j < l.length := by
      have := hj; rw [List.length_drop] at this; omega
    exact h2 _ hjl (by omega)
  · intro a ha b hbmem
    obtain ⟨i, hi, rfl⟩ := List.mem_iff_getElem.mp ha
    have hip : i < p := by have := hi; rw [List.length_take] at this; omega
    have hil : i < l.length := by have := hi; rw [List.length_take] at this; omega
    rw [List.getElem_take]
    rcases List.mem_cons.mp hbmem with rfl | hb
    · exact h1 _ hil hip
    · obtain ⟨j, hj, rfl⟩ := List.mem_iff_getElem.mp hb
      rw [List.getElem_drop]
      have hjl : p + j < l.length := by
        have := hj; rw [List.length_drop] at this; omega
      exact List.pairwise_iff_getElem.mp hs _ _ hil hjl (by omega)

lemma mem_insertAt {l : List α} {x e : α} {p : Nat} (h : e ∈ insertAt l p x) :
    e ∈ l ∨ e = x := by
  unfold insertAt at h
  rcases List.mem_append.mp h with h | h
  · exact Or.inl (List.take_subset p l h)
  · rcases List.mem_cons.mp h with h | h
    · exact Or.inr h
    · exact Or.inl (List.drop_subset p l h)

lemma arenaGet_append_left {items l : List Item} {id : Nat} {it : Item}
    (h : arenaGet items id = some it) : arenaGet (items ++ l) id = some it := by
  unfold arenaGet at *
  rw [List.get?_eq_getElem?] at *
  have hlt : id < items.length := by
    by_contra hge
    rw [List.getElem?_eq_none (by omega)] at h
    cases h
  rw [List.getElem?_append, if_pos hlt]
  exact h

lemma arenaGet_concat {items : List Item} {it : Item} :
    arenaGet (items ++ [it]) items.length = some it := by
  unfold arenaGet
  rw [List.get?_eq_getElem?]
  exact List.getElem?_concat_length items it

/-- The invariant every successfully built per-file index satisfies: the
`location_map` is strictly sorted by begin position, every entry
dereferences to a `ModuleIdentifier` or `UnknownIdentifier` item, and the
per-file `global_items` keys are distinct. -/
def InvPF (d : DataPerFile) : Prop :=
  List.Pairwise (fun a b : Range × Nat => posLt a.1.begin b.1.begin) d.location_map ∧
  (∀ e ∈ d.location_map,
    ∃ it, arenaGet d.items e.2 = some it ∧ it.isIdentifierLike = true) ∧
  List.Nodup (d.global_items.map Prod.fst)

/-- Successful `insert_semantic` characterised: the binary search missed at
some position `p`, the item went to the end of the arena, and
`(range, id)` was inserted at `p`. -/
lemma insertSemantic_ok {d : DataPerFile} {it : Item} {d' : DataPerFile} {idx : Nat}
    (h : insertSemantic d it = .ok (d', idx)) :
    ∃ p, binarySearchBy (fun e => posCmp e.1.begin it.location.begin) d.location_map
        = .error p ∧
      d'.line_index = d.line_index ∧
      d'.items = d.items ++ [it] ∧
      d'.location_map = insertAt d.location_map p (it.location, d.items.length) ∧
      d'.global_items = d.global_items ∧
      idx = d.items.length := by
  unfold insertSemantic arenaInsert at h
  cases hbs : binarySearchBy (fun e => posCmp e.1.begin it.location.begin) d.location_map with
  | ok m => simp only [hbs] at h; cases h
  | error p =>
    simp only [hbs] at h
    cases h
    exact ⟨p, rfl, rfl, rfl, rfl, rfl, rfl⟩

lemma insertSemantic_inv {d : DataPerFile} {it : Item} {d' : DataPerFile} {idx : Nat}
    (hinv : InvPF d) (h : insertSemantic d it = .ok (d', idx))
    (hident : it.isIdentifierLike = true) : InvPF d' := by
  obtain ⟨p, hbs, _hline, hitems, hloc, hglob, _hidx⟩ := insertSemantic_ok h
  obtain ⟨hsort, hids, hnd⟩ := hinv
  obtain ⟨_hple, hlo, hhi⟩ :=
    binarySearchBy_err_spec (fun e : Range × Nat => e.1.begin) it.location.begin _
      hsort p hbs
  refine ⟨?_, ?_, ?_⟩
  · rw [hloc]
    exact insertAt_pairwise (fun e : Range × Nat => e.1.begin) _
      (it.location, d.items.length) p hsort hlo hhi
  · intro e he
    rw [hloc] at he
    rcases mem_insertAt he with he | rfl
    · obtain ⟨it₀, hg, hi⟩ := hids e he
      exact ⟨it₀, by rw [hitems]; exact arenaGet_append_left hg, hi⟩
    · exact ⟨it, by rw [hitems]; exact arenaGet_concat, hident⟩
  · rw [hglob]; exact hnd

lemma arena_extend_inv {d : DataPerFile} {it : Item} (hinv : InvPF d) :
    InvPF { d with items := (arenaInsert d.items it).1 } := by
  obtain ⟨hsort, hids, hnd⟩ := hinv
  refine ⟨hsort, ?_, hnd⟩
  intro e he
  obtain ⟨it₀, hg, hi⟩ := hids e he
  exact ⟨it₀, arenaGet_append_left hg, hi⟩

lemma processModuleInstItem_inv {d : DataPerFile} {inst : ModuleInstantiation}
    {d' : DataPerFile} (hinv : InvPF d)
    (h : processModuleInstItem d inst = .ok d') : InvPF d' := by
  unfold processModuleInstItem at h
  split at h
  · cases h
  split at h
  · cases h
  case _ _ _ d1 module_id heq1 =>
    split at h
    · cases h
    split at h
    · cases h
    case _ _ _ d2 instance_name heq2 =>
      split at h
      · cases h
      cases h
      exact arena_extend_inv
        (insertSemantic_inv (insertSemantic_inv hinv heq1 rfl) heq2 rfl)

lemma processItem_inv {d : DataPerFile} {item : NonPortModuleItem} {d' : DataPerFile}
    (hinv : InvPF d) (h : processItem d item = .ok d') : InvPF d' := by
  cases item with
  | moduleOrGenerateItem it =>
    cases it with
    | module inst => exact processModuleInstItem_inv hinv h
    | moduleItem => cases h; exact hinv
    | parameter => cases h
    | gate => cases h
    | udp => cases h
  | generateRegion => cases h
  | specifyBlock => cases h
  | specparam => cases h
  | programDeclaration => cases h
  | moduleDeclaration => cases h
  | interfaceDeclaration => cases h
  | timeunitsDeclaration => cases h

lemma processItems_inv : ∀ (items : List NonPortModuleItem) {d d' : DataPerFile},
    InvPF d → processItems d items = .ok d' → InvPF d' := by
  intro items
  induction items with
  | nil => intro d d' hinv h; cases h; exact hinv
  | cons item rest ih =>
    intro d d' hinv h
    unfold processItems at h
    cases hi : processItem d item with
    | error e => rw [hi] at h; cases h
    | ok d1 =>
      simp only [hi] at h
      exact ih (processItem_inv hinv hi) h

lemma mem_keys_insertPF : ∀ (l : List (String × Nat)) (k : String) (v : Nat) (x : String),
    x ∈ (insertPF l k v).map Prod.fst ↔ x ∈ l.map Prod.fst ∨ x = k := by
  intro l k v
  induction l with
  | nil => intro x; simp [insertPF]
  | cons e rest ih =>
    intro x
    cases e with
    | mk k' v' =>
      unfold insertPF
      by_cases he : k' = k
      · subst he
        rw [if_pos rfl]
        simp only [List.map_cons, List.mem_cons]
        constructor
        · rintro (rfl | hx)
          · exact Or.inr rfl
          · exact Or.inl (Or.inr hx)
        · rintro ((rfl | hx) | rfl)
          · exact Or.inl rfl
          · exact Or.inr hx
          · exact Or.inl rfl
      · rw [if_neg he]
        simp only [List.map_cons, List.mem_cons]
        constructor
        · rintro (rfl | hx)
          · exact Or.inl (Or.inl rfl)
          · rcases (ih x).mp hx with h | h
            · exact Or.inl (Or.inr h)
            · exact Or.inr h
        · rintro ((rfl | hx) | rfl)
          · exact Or.inl rfl
          · exact Or.inr ((ih x).mpr (Or.inl hx))
          · exact Or.inr ((ih x).mpr (Or.inr rfl))

lemma insertPF_nodup : ∀ (l : List (String × Nat)) (k : String) (v : Nat),
    List.Nodup (l.map Prod.fst) → List.Nodup ((insertPF l k v).map Prod.fst) := by
  intro l k v
  induction l with
  | nil => intro _; simp [insertPF]
  | cons e rest ih =>
    intro hnd
    cases e with
    | mk k' v' =>
      rw [List.map_cons, List.nodup_cons] at hnd
      unfold insertPF
      by_cases he : k' = k
      · rw [if_pos he]
        subst he
        rw [List.map_cons, List.nodup_cons]
        exact hnd
      · rw [if_neg he]
        rw [List.map_cons, List.nodup_cons]
        refine ⟨?_, ih hnd.2⟩
        intro hmem
        rcases (mem_keys_insertPF rest k v k').mp hmem with h | h
        · exact hnd.1 h
        · exact he h

lemma processModuleDeclaration_inv {d : DataPerFile} {kw : ModuleKeyword}
    {ident : Locate × String} {end_locate : Locate}
    {items : List NonPortModuleItem} {d' : DataPerFile} (hinv : InvPF d)
    (h : processModuleDeclaration d kw ident end_locate items = .ok d') : InvPF d' := by
  simp only [processModuleDeclaration] at h
  cases hb : locateToPosition d.line_index kw.locate with
  | error e => simp only [hb] at h; cases h
  | ok b =>
    simp only [hb] at h
    cases he2 : locateToPosition d.line_index end_locate with
    | error e => simp only [he2] at h; cases h
    | ok e2 =>
      simp only [he2] at h
      cases hins : insertSemantic d (.moduleIdentifier ident.2 ⟨b, e2⟩) with
      | error er => simp only [hins] at h; cases h
      | ok pr =>
        obtain ⟨d1, module_id⟩ := pr
        simp only [hins] at h
        cases hitems : processItems d1 items with
        | error er => simp only [hitems] at h; cases h
        | ok d2 =>
          simp only [hitems] at h
          cases h
          obtain ⟨hsort, hids, hnd⟩ :=
            processItems_inv items (insertSemantic_inv hinv hins rfl) hitems
          exact ⟨hsort, hids, insertPF_nodup _ _ _ hnd⟩

lemma processDescription_inv {d : DataPerFile} {desc : Description} {d' : DataPerFile}
    (hinv : InvPF d) (h : processDescription d desc = .ok d') : InvPF d' := by
  cases desc with
  | other => cases h; exact hinv
  | moduleDeclaration module =>
    cases module with
    | nonansi header items endKeyword endLabel =>
      exact processModuleDeclaration_inv hinv h
    | ansi header items endKeyword endLabel =>
      exact processModuleDeclaration_inv hinv h
    | wildcard => cases h
    | externNonansi => cases h
    | externAnsi => cases h

lemma processDescriptions_inv : ∀ (descs : List Description) {d d' : DataPerFile},
    InvPF d → processDescriptions d descs = .ok d' → InvPF d' := by
  intro descs
  induction descs with
  | nil => intro d d' hinv h; cases h; exact hinv
  | cons desc rest ih =>
    intro d d' hinv h
    unfold processDescriptions at h
    cases hi : processDescription d desc with
    | error e => rw [hi] at h; cases h
    | ok d1 =>
      simp only [hi] at h
      exact ih (processDescription_inv hinv hi) h

/-- Every per-file index `DataPerFile::new` successfully builds satisfies
the per-file invariant. -/
lemma DataPerFile.new_inv {t : SynTree} {d : DataPerFile}
    (h : DataPerFile.new t = .ok d) : InvPF d := by
  unfold DataPerFile.new at h
  exact processDescriptions_inv t.descriptions ⟨List.Pairwise.nil, by simp, by simp⟩ h

lemma lookupPF_eq_none {l : List (String × Nat)} {n : String} :
    lookupPF l n = none ↔ n ∉ l.map Prod.fst := by
  induction l with
  | nil => simp [lookupPF]
  | cons e rest ih =>
    cases e with
    | mk k v =>
      unfold lookupPF
      by_cases hk : k = n
      · subst hk; simp
      · rw [if_neg hk]
        simp only [List.map_cons, List.mem_cons]
        rw [ih]
        constructor
        · intro hn hc
          rcases hc with rfl | hc
          · exact hk rfl
          · exact hn hc
        · intro hn hc
          exact hn (Or.inr hc)

lemma removeAll_lookup : ∀ (keys : List String) (g : String → Option (FileId × Nat))
    (n : String), removeAll g keys n = if n ∈ keys then none else g n := by
  intro keys
  induction keys with
  | nil => intro g n; simp [removeAll]
  | cons k rest ih =>
    intro g n
    unfold removeAll
    rw [ih]
    by_cases hn : n ∈ rest
    · rw [if_pos hn, if_pos (List.mem_cons.mpr (Or.inr hn))]
    · rw [if_neg hn]
      by_cases hk : n = k
      · subst hk; simp
      · rw [if_neg hk, if_neg (by simp [hk, hn])]

lemma lookupPF_cons (k : String) (v : Nat) (rest : List (String × Nat)) (n : String) :
    lookupPF ((k, v) :: rest) n = if k = n then some v else lookupPF rest n := rfl

lemma insertAllG_lookup : ∀ (es : List (String × Nat))
    (g : String → Option (FileId × Nat)) (fid : FileId) (n : String),
    List.Nodup (es.map Prod.fst) →
    insertAllG g fid es n =
      match lookupPF es n with
      | some v => some (fid, v)
      | none => g n := by
  intro es
  induction es with
  | nil => intro g fid n _; simp [insertAllG, lookupPF]
  | cons e rest ih =>
    intro g fid n hnd
    cases e with
    | mk k v =>
      rw [List.map_cons, List.nodup_cons] at hnd
      unfold insertAllG
      rw [ih _ _ _ hnd.2, lookupPF_cons]
      by_cases hk : k = n
      · subst hk
        rw [lookupPF_eq_none.mpr hnd.1, if_pos rfl]
        simp
      · rw [if_neg hk]
        cases hr : lookupPF rest n with
        | some v' => simp only [hr]
        | none =>
          simp only [hr]
          rw [if_neg (fun hc => hk hc.symm)]

lemma getByLeft_append_none {files : List (String × FileId)} {p : String}
    (h : getByLeft files p = none) (v : FileId) :
    getByLeft (files ++ [(p, v)]) p = some v := by
  induction files with
  | nil => simp [getByLeft]
  | cons e rest ih =>
    cases e with
    | mk q id =>
      rw [List.cons_append]
      unfold getByLeft at h ⊢
      by_cases hq : q = p
      · rw [if_pos hq] at h; cases h
      · rw [if_neg hq] at h ⊢
        exact ih h

/-- Characterisation of a successful `Db::update`: the new per-file index is
swapped in under the resolved `FileId`, the old index's names are removed
from the global table by key, and the new index's names are inserted. -/
lemma update_eq {db : Db} {path : String} {t : SynTree} {fid : FileId} {db' : Db}
    (h : Db.update db path t = .ok (fid, db')) :
    ∃ dpf, DataPerFile.new t = .ok dpf ∧
      fid = (pathToFileid db.files path).1 ∧
      db'.files = (pathToFileid db.files path).2 ∧
      db'.data = (fun f => if f = fid then some dpf else db.data f) ∧
      db'.global_items = insertAllG
        (match db.data fid with
          | some old => removeAll db.global_items (old.global_items.map Prod.fst)
          | none => db.global_items) fid dpf.global_items := by
  unfold Db.update at h
  cases hn : DataPerFile.new t with
  | error e => simp only [hn] at h; cases h
  | ok dpf =>
    simp only [hn] at h
    cases hp : pathToFileid db.files path with
    | mk f fl =>
      simp only [hp] at h
      cases h
      exact ⟨dpf, rfl, rfl, rfl, rfl, rfl⟩

/-- The database invariant: every stored per-file index satisfies `InvPF`. -/
def InvDb (db : Db) : Prop := ∀ fid d, db.data fid = some d → InvPF d

/-- The databases reachable from `Db::default()` by successful `update`
calls. -/
inductive Reachable : Db → Prop where
  | base : Reachable Db.empty
  | step {db : Db} {path : String} {t : SynTree} {fid : FileId} {db' : Db} :
      Reachable db → Db.update db path t = .ok (fid, db') → Reachable db'

lemma update_invDb {db : Db} {path : String} {t : SynTree} {fid : FileId} {db' : Db}
    (hdb : InvDb db) (h : Db.update db path t = .ok (fid, db')) : InvDb db' := by
  obtain ⟨dpf, hn, _hf, _hfl, hdata, _hg⟩ := update_eq h
  intro f d hfd
  simp only [hdata] at hfd
  by_cases hf : f = fid
  · rw [if_pos hf] at hfd
    cases hfd
    exact DataPerFile.new_inv hn
  · rw [if_neg hf] at hfd
    exact hdb f d hfd

lemma reachable_invDb {db : Db} (h : Reachable db) : InvDb db := by
  induction h with
  | base => intro fid d hd; cases hd
  | step _hr hu ih => exact update_invDb ih hu

lemma isIdentifierLike_isInstance_false {it : Item}
    (h : it.isIdentifierLike = true) : it.isInstance = false := by
  cases it <;> simp_all [Item.isIdentifierLike, Item.isInstance]

/-- The database after `update("top.sv", topTree)` on an empty database
(the `.error` arm is dead: the update succeeds). -/
def dbTop : Db :=
  match Db.update Db.empty "top.sv" topTree with
  | .ok (_, db) => db
  | .error _ => Db.empty

lemma dbTop_update : Db.update Db.empty "top.sv" topTree = .ok (0, dbTop) := rfl

lemma dbTop_data : dbTop.data 0 = some dpfTop := rfl

/-- C7. For every file and after every update call, the entries of that
file's LocationIndex are strictly sorted by their range's begin position
(in particular no two entries share a begin position): in every database
reachable from `Db::default()` by successful `update` calls, every stored
`location_map` is pairwise strictly increasing on `begin`. -/
theorem c7_sorted (db : Db) (h : Reachable db) :
    ∀ fid d, db.data fid = some d →
      List.Pairwise (fun a b : Range × Nat => posLt a.1.begin b.1.begin) d.location_map :=
  fun fid d hd => (reachable_invDb h fid d hd).1

theorem c7_sorted_witness :
    List.Pairwise (fun a b : Range × Nat => posLt a.1.begin b.1.begin)
      dpfTop.location_map :=
  c7_sorted dbTop (Reachable.step Reachable.base dbTop_update) 0 dpfTop dbTop_data

/-- C10. In every reachable database, every LocationIndex entry
dereferences to a `ModuleIdentifier` or `UnknownIdentifier` item — never a
`ModuleInstance` (those live in the arena without a LocationIndex entry) —
and consequently the item `goto_definition` dispatches on
(`get_item_on_location`'s result) is never a `ModuleInstance`, so the
`ModuleInstance` dispatch branch is never taken. -/
theorem c10_no_instance (db : Db) (h : Reachable db) :
    (∀ fid d, db.data fid = some d → ∀ r id, (r, id) ∈ d.location_map →
      ∃ it, arenaGet d.items id = some it ∧ it.isIdentifierLike = true) ∧
    (∀ (q : DocumentPosition) (fid : FileId) (it : Item),
      getByLeft db.files q.document = some fid →
      getItemOnLocation db fid q.position = some it → it.isInstance = false) := by
  have hinv := reachable_invDb h
  constructor
  · intro fid d hd r id hmem
    exact (hinv fid d hd).2.1 (r, id) hmem
  · intro q fid it _hfid hget
    unfold getItemOnLocation at hget
    cases hd : db.data fid with
    | none => rw [hd] at hget; cases hget
    | some data =>
      rw [hd] at hget
      cases hbs : binarySearchBy (fun e => rangeCmpPos e.1 q.position)
          data.location_map with
      | error p => simp only [hbs] at hget; cases hget
      | ok i =>
        simp only [hbs] at hget
        cases hgi : data.location_map.get? i with
        | none => simp only [hgi] at hget; cases hget
        | some e =>
          simp only [hgi] at hget
          have hmem : e ∈ data.location_map := by
            rw [List.get?_eq_getElem?] at hgi
            exact List.getElem?_mem hgi
          obtain ⟨it₀, hg, hident⟩ := (hinv fid data hd).2.1 e hmem
          rw [hget] at hg
          cases hg
          exact isIdentifierLike_isInstance_false hident

theorem c10_no_instance_witness :
    ∃ it, arenaGet dpfTop.items 1 = some it ∧ it.isIdentifierLike = true :=
  (c10_no_instance dbTop (Reachable.step Reachable.base dbTop_update)).1 0 dpfTop
    dbTop_data ⟨⟨0, 12⟩, ⟨0, 17⟩⟩ 1 (by decide)

/-- C2 counterexample. The claim states that an item nested inside another
item's span (such as the `mod_a` type-name occurrence inside `top`'s
module-keyword-to-endmodule span) has its range never inserted into the
same flat LocationIndex. On `topTree` the build succeeds and the flat
`location_map` holds both the enclosing declaration's span
`(0,0)-(0,27)` and, nested strictly inside it, the type-name occurrence's
range `(0,12)-(0,17)` (entry 1, a `ModuleIdentifier`), refuting the claim. -/
theorem c2_counterexample :
    DataPerFile.new topTree = .ok dpfTop ∧
    dpfTop.location_map =
      [(⟨⟨0, 0⟩, ⟨0, 27⟩⟩, 0), (⟨⟨0, 12⟩, ⟨0, 17⟩⟩, 1), (⟨⟨0, 18⟩, ⟨0, 23⟩⟩, 2)] ∧
    arenaGet dpfTop.items 1 = some (.moduleIdentifier "mod_a" ⟨⟨0, 12⟩, ⟨0, 17⟩⟩) ∧
    posLt ⟨0, 0⟩ ⟨0, 12⟩ ∧ posLt ⟨0, 17⟩ ⟨0, 27⟩ :=
  ⟨rfl, rfl, rfl, by decide, by decide⟩

/-- C2 as amended: in every successfully built per-file index, the entries
of the flat LocationIndex may overlap (nested type-name and instance-name
token ranges are inserted alongside the enclosing declaration's span), but
(a) no LocationIndex entry ever refers to a `ModuleInstance` item — only
`ModuleInstance` items are kept out of the flat index, reachable through
the arena alone — and (b) entries still have pairwise distinct begin
positions. -/
theorem c2_amended (t : SynTree) (d : DataPerFile) (h : DataPerFile.new t = .ok d) :
    (∀ r id, (r, id) ∈ d.location_map → ∀ it, arenaGet d.items id = some it →
      it.isInstance = false) ∧
    List.Pairwise (fun a b : Range × Nat => a.1.begin ≠ b.1.begin) d.location_map := by
  obtain ⟨hsort, hids, _⟩ := DataPerFile.new_inv h
  constructor
  · intro r id hmem it hit
    obtain ⟨it₀, hg, hident⟩ := hids (r, id) hmem
    rw [hit] at hg
    cases hg
    exact isIdentifierLike_isInstance_false hident
  · exact hsort.imp posLt_ne

theorem c2_amended_witness :
    (Item.moduleIdentifier "mod_a" ⟨⟨0, 12⟩, ⟨0, 17⟩⟩).isInstance = false ∧
    List.Pairwise (fun a b : Range × Nat => a.1.begin ≠ b.1.begin)
      dpfTop.location_map :=
  ⟨(c2_amended topTree dpfTop rfl).1 ⟨⟨0, 12⟩, ⟨0, 17⟩⟩ 1 (by decide) _ rfl,
   (c2_amended topTree dpfTop rfl).2⟩

/-- The syntax tree of a one-line file `module <name>; endmodule` declaring
a single module with the given name. -/
def mkModTree (name : String) : SynTree :=
  { newlineTokens := []
    descriptions := [.moduleDeclaration (.nonansi
      { keyword := .module ⟨0, 1, 6⟩, identifier := (⟨7, 1, name.length⟩, name) }
      [] ⟨14, 1, 9⟩ none)] }

/-- A syntax tree with no descriptions at all (an empty source file). -/
def emptyTree : SynTree := { newlineTokens := [], descriptions := [] }

/-- The database after `update("a.sv", module M)`, then
`update("b.sv", module M)`, then `update("a.sv", empty)` (all three
updates succeed; the `.error` arms are dead). -/
def dbC3 : Db :=
  match Db.update Db.empty "a.sv" (mkModTree "M") with
  | .error _ => Db.empty
  | .ok (_, db1) =>
    match Db.update db1 "b.sv" (mkModTree "M") with
    | .error _ => Db.empty
    | .ok (_, db2) =>
      match Db.update db2 "a.sv" emptyTree with
      | .error _ => Db.empty
      | .ok (_, db3) => db3

/-- C3 counterexample. After `update(a.sv, module M)`,
`update(b.sv, module M)`, `update(a.sv, empty)`, file `b.sv` (FileId 1) is
still indexed and its per-file index still declares `M`, yet the
GlobalSymbolTable no longer resolves `M`: re-updating `a.sv` removed the
key `M` outright even though the entry was contributed by `b.sv`. This
refutes both "maps exactly the union over all currently-indexed files" and
"a name still declared by a different currently-indexed file remains
resolvable". -/
theorem c3_counterexample :
    dbC3.global_items "M" = none ∧
    (dbC3.data 1).map (fun d => d.global_items) = some [("M", 0)] ∧
    dbC3.files = [("a.sv", 0), ("b.sv", 1)] :=
  ⟨rfl, rfl, rfl⟩

/-- C3 as amended: one `update` call changes the GlobalSymbolTable exactly
as follows. Every name the new per-file index declares maps to
`(fid, its new ItemId)` (so collisions are last-writer-wins); every other
name that the replaced file's old index had registered is removed — by name
alone, regardless of which file currently contributes the entry (so a
colliding name declared by another currently-indexed file can become
unresolvable); all remaining names are untouched. -/
theorem c3_amended (db : Db) (path : String) (t : SynTree) (fid : FileId) (db' : Db)
    (dpf : DataPerFile) (h : Db.update db path t = .ok (fid, db'))
    (hb : DataPerFile.new t = .ok dpf) :
    ∀ n, db'.global_items n =
      match lookupPF dpf.global_items n with
      | some idx => some (fid, idx)
      | none =>
        match db.data fid with
        | some old =>
          if n ∈ old.global_items.map Prod.fst then none else db.global_items n
        | none => db.global_items n := by
  obtain ⟨dpf', hn, _hfid, _hfl, _hdata, hg⟩ := update_eq h
  rw [hb] at hn
  cases hn
  intro n
  rw [hg, insertAllG_lookup _ _ _ _ (DataPerFile.new_inv hb).2.2]
  cases hl : lookupPF dpf.global_items n with
  | some idx => simp only [hl]
  | none =>
    simp only [hl]
    cases hold : db.data fid with
    | some old => simp only [hold, removeAll_lookup]
    | none => simp only [hold]

/-- The database after `update("a.sv", module M)` on an empty database. -/
def dbA : Db :=
  match Db.update Db.empty "a.sv" (mkModTree "M") with
  | .ok (_, db) => db
  | .error _ => Db.empty

/-- The per-file index built for `module M; endmodule`. -/
def dpfM : DataPerFile :=
  match DataPerFile.new (mkModTree "M") with
  | .ok d => d
  | .error _ => { line_index := [], items := [], location_map := [], global_items := [] }

theorem c3_amended_witness : dbA.global_items "M" = some (0, 0) :=
  (c3_amended Db.empty "a.sv" (mkModTree "M") 0 dbA dpfM rfl rfl "M").trans rfl

/-- C8. Calling `update` twice with the same `(path, tree)` is idempotent:
if the first call returned `(fid, db1)`, the second call returns the same
`FileId` and the identical database value `db1` — hence `goto_definition`
on the twice-updated database returns the identical result at every
`DocumentPosition`. -/
theorem c8_idempotent (db : Db) (path : String) (t : SynTree) (fid : FileId)
    (db1 : Db) (h : Db.update db path t = .ok (fid, db1)) :
    Db.update db1 path t = .ok (fid, db1) := by
  obtain ⟨dpf, hn, hfid, hfl, hdata, hg⟩ := update_eq h
  have hnd : List.Nodup (dpf.global_items.map Prod.fst) := (DataPerFile.new_inv hn).2.2
  have hd1 : db1.data fid = some dpf := by rw [hdata]; simp
  have hgl1 : getByLeft db1.files path = some fid := by
    rw [hfl, hfid]
    unfold pathToFileid
    cases hgl : getByLeft db.files path with
    | some id => simp only [hgl]
    | none => simp only [hgl]; exact getByLeft_append_none hgl _
  have hpf1 : pathToFileid db1.files path = (fid, db1.files) := by
    unfold pathToFileid; rw [hgl1]
  have hdataeq : (fun f => if f = fid then some dpf else db1.data f) = db1.data := by
    funext f
    by_cases hf : f = fid
    · subst hf; rw [if_pos rfl, hd1]
    · rw [if_neg hf]
  have hgeq : insertAllG (removeAll db1.global_items (dpf.global_items.map Prod.fst))
      fid dpf.global_items = db1.global_items := by
    funext n
    rw [insertAllG_lookup _ _ _ _ hnd, removeAll_lookup]
    cases hl : lookupPF dpf.global_items n with
    | some v =>
      simp only [hl]
      rw [hg, insertAllG_lookup _ _ _ _ hnd, hl]
    | none =>
      simp only [hl]
      rw [if_neg (lookupPF_eq_none.mp hl)]
  unfold Db.update
  rw [hn, hpf1]
  simp only [hd1]
  rw [hdataeq, hgeq]

theorem c8_idempotent_witness : Db.update dbTop "top.sv" topTree = .ok (0, dbTop) :=
  c8_idempotent Db.empty "top.sv" topTree 0 dbTop dbTop_update

/-- C9 counterexample. The claim says the `ModuleInstance` item's location
"spans the whole instantiation". In `topTree` the instantiation
`mod_a inst1()` begins at the type name's position `(0,12)`, but the stored
`ModuleInstance` (arena slot 3) carries the instance-name token's range
`(0,18)-(0,23)` — recomputed from the same `InstanceIdentifier` node that
located `inst1` — which starts strictly after `(0,12)` and therefore
excludes the type name entirely. -/
theorem c9_counterexample :
    DataPerFile.new topTree = .ok dpfTop ∧
    arenaGet dpfTop.items 3 = some (.moduleInstance 1 2 [] [] ⟨⟨0, 18⟩, ⟨0, 23⟩⟩) ∧
    arenaGet dpfTop.items 1 = some (.moduleIdentifier "mod_a" ⟨⟨0, 12⟩, ⟨0, 17⟩⟩) ∧
    posLt ⟨0, 12⟩ ⟨0, 18⟩ :=
  ⟨rfl, rfl, rfl, by decide⟩

/-- C9 as amended: for every module instantiation processed in a module
body, exactly three linked items are appended to the arena in this order —
a `ModuleIdentifier` at the referenced type name's range, an
`UnknownIdentifier` at the instance-name token's range, and a
`ModuleInstance` whose `module_name`/`instance_name` fields hold the
ItemIds of the two just-inserted items and whose location is the
instance-name token's range (not the whole instantiation) — and the
per-file `global_items` is unchanged (the type-name use is not registered
as a global declaration). -/
theorem c9_amended (d : DataPerFile) (inst : ModuleInstantiation) (d' : DataPerFile)
    (h : processModuleInstItem d inst = .ok d') :
    ∃ r1 r2,
      getLocationOfNode d.line_index inst.identifier.1 = .ok r1 ∧
      getLocationOfNode d.line_index inst.instanceName.1 = .ok r2 ∧
      d'.items = d.items ++
        [.moduleIdentifier inst.identifier.2 r1,
         .unknownIdentifier inst.instanceName.2 r2,
         .moduleInstance d.items.length (d.items.length + 1) [] [] r2] ∧
      d'.global_items = d.global_items := by
  unfold processModuleInstItem at h
  cases hl1 : getLocationOfNode d.line_index inst.identifier.1 with
  | error e => simp only [hl1] at h; cases h
  | ok r1 =>
    simp only [hl1] at h
    cases hi1 : insertSemantic d (.moduleIdentifier inst.identifier.2 r1) with
    | error e => simp only [hi1] at h; cases h
    | ok pr1 =>
      obtain ⟨d1, mid⟩ := pr1
      simp only [hi1] at h
      obtain ⟨p1, _hbs1, hline1, hitems1, _hloc1, hglob1, hidx1⟩ := insertSemantic_ok hi1
      rw [hline1] at h
      cases hl2 : getLocationOfNode d.line_index inst.instanceName.1 with
      | error e => simp only [hl2] at h; cases h
      | ok r2 =>
        simp only [hl2] at h
        cases hi2 : insertSemantic d1 (.unknownIdentifier inst.instanceName.2 r2) with
        | error e => simp only [hi2] at h; cases h
        | ok pr2 =>
          obtain ⟨d2, iid⟩ := pr2
          simp only [hi2] at h
          obtain ⟨p2, _hbs2, hline2, hitems2, _hloc2, hglob2, hidx2⟩ :=
            insertSemantic_ok hi2
          rw [hline2, hline1] at h
          simp only [hl2] at h
          cases h
          refine ⟨r1, r2, rfl, rfl, ?_, ?_⟩
          · show (arenaInsert d2.items (.moduleInstance mid iid [] [] r2)).1 = _
            subst hidx1 hidx2
            unfold arenaInsert
            rw [hitems2, hitems1]
            simp [List.append_assoc]
          · show d2.global_items = d.global_items
            rw [hglob2, hglob1]

/-- The per-file state right after `topTree`'s module declaration item was
inserted (line index of the one-line file, the declaration's
`ModuleIdentifier` in the arena and the location map). -/
def c9d0 : DataPerFile :=
  { line_index := [0]
    items := [.moduleIdentifier "top" ⟨⟨0, 0⟩, ⟨0, 27⟩⟩]
    location_map := [(⟨⟨0, 0⟩, ⟨0, 27⟩⟩, 0)]
    global_items := [] }

/-- The `mod_a inst1()` instantiation of `topTree`. -/
def c9inst : ModuleInstantiation :=
  { identifier := (⟨12, 1, 5⟩, "mod_a"), instanceName := (⟨18, 1, 5⟩, "inst1") }

/-- The state after processing `c9inst` (the `.error` arm is dead). -/
def c9d1 : DataPerFile :=
  match processModuleInstItem c9d0 c9inst with
  | .ok d => d
  | .error _ => c9d0

theorem c9_amended_witness :
    c9d1.items = c9d0.items ++
      [.moduleIdentifier "mod_a" ⟨⟨0, 12⟩, ⟨0, 17⟩⟩,
       .unknownIdentifier "inst1" ⟨⟨0, 18⟩, ⟨0, 23⟩⟩,
       .moduleInstance 1 2 [] [] ⟨⟨0, 18⟩, ⟨0, 23⟩⟩] ∧
    c9d1.global_items = c9d0.global_items := by
  obtain ⟨r1, r2, h1, h2, hitems, hglob⟩ := c9_amended c9d0 c9inst c9d1 rfl
  have e1 : (Except.ok r1 : Except Panic Range) = .ok ⟨⟨0, 12⟩, ⟨0, 17⟩⟩ :=
    h1.symm.trans rfl
  have e2 : (Except.ok r2 : Except Panic Range) = .ok ⟨⟨0, 18⟩, ⟨0, 23⟩⟩ :=
    h2.symm.trans rfl
  cases e1
  cases e2
  exact ⟨hitems, hglob⟩

/-- C6. The spec's two-file scenario: `top.sv` holds
`module top; mod_a inst1(); endmodule` and `leaf.sv` declares `mod_a`.
After `update(top.sv, topTree)` then `update(leaf.sv, leafTree)`,
`goto_definition` at the position of the `mod_a` type-name use in `top.sv`
(its token's begin `(0,12)`) returns `mod_a`'s module-keyword-to-endmodule
span `(0,0)-(0,14)` in `leaf.sv` — exactly the range stored for `mod_a`'s
declaration, as the third conjunct shows — and `goto_definition` at the
position of `inst1` (its token's begin `(0,18)`) returns `inst1`'s own
token range `(0,18)-(0,23)` in `top.sv`. -/
theorem c6_goto_scenario :
    Db.gotoDefinition dbScenario ⟨"top.sv", ⟨0, 12⟩⟩ =
      some ⟨"leaf.sv", ⟨⟨0, 0⟩, ⟨0, 14⟩⟩⟩ ∧
    Db.gotoDefinition dbScenario ⟨"top.sv", ⟨0, 18⟩⟩ =
      some ⟨"top.sv", ⟨⟨0, 18⟩, ⟨0, 23⟩⟩⟩ ∧
    (dbScenario.data 1).map (fun d => d.items) =
      some [.moduleIdentifier "mod_a" ⟨⟨0, 0⟩, ⟨0, 14⟩⟩] :=
  ⟨rfl, rfl, rfl⟩

/-- A tree whose module body holds a generate region (an unhandled
construct: `todo!()` in the walker). -/
def tUnsup : SynTree :=
  { newlineTokens := []
    descriptions := [.moduleDeclaration (.nonansi
      { keyword := .module ⟨0, 1, 6⟩, identifier := (⟨7, 1, 1⟩, "a") }
      [.nonPortModuleItem .generateRegion] ⟨20, 1, 9⟩ none)] }

/-- A tree with two module declarations whose keywords share the same
start position, so the second `insert_semantic` finds an entry already
beginning there. -/
def tDup : SynTree :=
  { newlineTokens := []
    descriptions :=
      [.moduleDeclaration (.nonansi
        { keyword := .module ⟨0, 1, 6⟩, identifier := (⟨7, 1, 1⟩, "a") }
        [] ⟨14, 1, 9⟩ none),
       .moduleDeclaration (.nonansi
        { keyword := .module ⟨0, 1, 6⟩, identifier := (⟨7, 1, 1⟩, "b") }
        [] ⟨14, 1, 9⟩ none)] }

/-- A tree whose module keyword claims line 2 while the file has no newline
token, so the line table (which is just `[0]`) has no entry for the line. -/
def tMismatch : SynTree :=
  { newlineTokens := []
    descriptions := [.moduleDeclaration (.nonansi
      { keyword := .module ⟨10, 2, 6⟩, identifier := (⟨17, 2, 1⟩, "a") }
      [] ⟨24, 2, 9⟩ none)] }

/-- C1 evaluated at the failing inputs: each of the three error kinds makes
the whole index construction stop with a `Panic` — the model of the Rust
`todo!()` / `panic!` — and the panic propagates out of `Db::update`, which
therefore produces neither a `FileId` nor any recoverable per-file error
value (its Rust signature is a plain `FileId`). The final conjunct shows
the panic also aborts an `update` against a populated database. -/
theorem c1_errors_panic :
    DataPerFile.new tUnsup = .error .unsupportedConstruct ∧
    DataPerFile.new tDup = .error .duplicateLocation ∧
    DataPerFile.new tMismatch = .error .lineIndexMismatch ∧
    Db.update Db.empty "f.sv" tUnsup = .error .unsupportedConstruct ∧
    Db.update dbScenario "g.sv" tDup = .error .duplicateLocation :=
  ⟨rfl, rfl, rfl, rfl, rfl⟩

/-- C4 evaluated at the failing input. For the two-line file
`"hello\nworld"` the line table is `[0, 6]`; the token `world` sits at
line 2, absolute offset 6. `locate_to_position` maps it to row 1, col 0,
but `offset_to_position(6)` walks the table without ever seeing an entry
greater than 6, leaves the loop with `line` still at the last index, and
returns `(line - 1, col) = (0, 0)`: the two functions disagree at the same
location. The last two conjuncts show they agree at offset 7 of the
three-line table `[0, 6, 12]` (a position before the last line, where the
loop's break does happen), isolating the divergence to offsets on the
final line. -/
theorem c4_offset_mismatch :
    locateToPosition [0, 6] ⟨6, 2, 5⟩ = .ok ⟨1, 0⟩ ∧
    offsetToPosition [0, 6] 6 = ⟨0, 0⟩ ∧
    offsetToPosition [0, 6, 12] 7 = ⟨1, 1⟩ ∧
    locateToPosition [0, 6, 12] ⟨7, 2, 5⟩ = .ok ⟨1, 1⟩ :=
  ⟨rfl, rfl, rfl, rfl⟩

/-- A single line terminator: LF (`"\n"`) or CRLF (`"\r\n"`). -/
inductive NlTerm where
  | lf
  | crlf
deriving Repr, DecidableEq

/-- Byte length of a terminator. -/
def NlTerm.len : NlTerm → Nat
  | .lf => 1
  | .crlf => 2

/-- The character content of a sequence of terminators. -/
def termsFlatten : List NlTerm → List Char
  | [] => []
  | .lf :: ts => '\n' :: termsFlatten ts
  | .crlf :: ts => '\r' :: '\n' :: termsFlatten ts

/-- The absolute offset at which each line after the first begins, for a
run of terminators starting at absolute offset `o`: one entry per
terminator, pointing just past it. -/
def lineStarts : Nat → List NlTerm → List Nat
  | _, [] => []
  | o, t :: ts => (o + t.len) :: lineStarts (o + t.len) ts

lemma splitCrlf_ne_nil : ∀ s, splitCrlf s ≠ [] := by
  intro s
  match s with
  | [] => simp [splitCrlf]
  | [c] => simp [splitCrlf]
  | c :: c2 :: rest =>
    unfold splitCrlf
    by_cases hc : c = '\r' ∧ c2 = '\n'
    · rw [if_pos hc]; simp
    · rw [if_neg hc]
      cases h : splitCrlf (c2 :: rest) <;> simp

lemma splitCrlf_cons_crlf (xs : List Char) :
    splitCrlf ('\r' :: '\n' :: xs) = [] :: splitCrlf xs := by
  conv_lhs => rw [splitCrlf]
  rw [if_pos ⟨rfl, rfl⟩]

lemma splitCrlf_cons_lf (xs : List Char) :
    splitCrlf ('\n' :: xs) =
      match splitCrlf xs with
      | [] => [['\n']]
      | h :: t => ('\n' :: h) :: t := by
  cases xs with
  | nil => rfl
  | cons x xs' =>
    conv_lhs => rw [splitCrlf]
    rw [if_neg (fun hc => absurd hc.1 (by decide))]

lemma splitLf_cons_lf (xs : List Char) :
    splitLf ('\n' :: xs) = [] :: splitLf xs := by
  conv_lhs => rw [splitLf]
  rw [if_pos rfl]

/-- Unfolding: processing a `"\r\n"`-free leading `"\n"` piece shifts the
position by one and pushes `pos` unless it is the very first piece. -/
lemma outer_shift (hd : List Char) (t : List (List Char)) (p : Nat) (first : Bool) :
    outerLoop (('\n' :: hd) :: t) p first =
      ⟨(if first then [] else [p]) ++ (outerLoop (hd :: t) (p + 1) false).pushes,
       (outerLoop (hd :: t) (p + 1) false).pos,
       (outerLoop (hd :: t) (p + 1) false).first⟩ := by
  show (let r := innerLoop (splitLf ('\n' :: hd)) p first
        let r2 := outerLoop t (r.pos + 1) r.first
        LoopState.mk (r.pushes ++ r2.pushes) r2.pos r2.first) = _
  rw [splitLf_cons_lf]
  show (let r := LoopState.mk
          ((if first then [] else [p]) ++ (innerLoop (splitLf hd) (p + 0 + 1) false).pushes)
          (innerLoop (splitLf hd) (p + 0 + 1) false).pos
          (innerLoop (splitLf hd) (p + 0 + 1) false).first
        let r2 := outerLoop t (r.pos + 1) r.first
        LoopState.mk (r.pushes ++ r2.pushes) r2.pos r2.first) = _
  simp only [Nat.add_zero, List.append_assoc]
  rfl

/-- Unfolding: processing an empty `split("\r\n")` piece (a CRLF boundary)
shifts the position by two (the inner `+1` plus the outer `+1`). -/
lemma outer_cons_nil (t : List (List Char)) (p : Nat) (first : Bool) :
    outerLoop ([] :: t) p first =
      ⟨(if first then [] else [p]) ++ (outerLoop t (p + 1 + 1) false).pushes,
       (outerLoop t (p + 1 + 1) false).pos,
       (outerLoop t (p + 1 + 1) false).first⟩ := by
  show (let r := innerLoop (splitLf []) p first
        let r2 := outerLoop t (r.pos + 1) r.first
        LoopState.mk (r.pushes ++ r2.pushes) r2.pos r2.first) = _
  show (let r := LoopState.mk ((if first then [] else [p]) ++ [])
          (p + 0 + 1) false
        let r2 := outerLoop t (r.pos + 1) r.first
        LoopState.mk (r.pushes ++ r2.pushes) r2.pos r2.first) = _
  simp only [Nat.add_zero, List.append_nil]

/-- The pushed offsets for a run of terminators starting at `p` with the
`first` flag already cleared: `p` itself, then the line starts. -/
lemma outer_false (ts : List NlTerm) : ∀ p : Nat,
    (outerLoop (splitCrlf (termsFlatten ts)) p false).pushes =
      p :: lineStarts p ts := by
  induction ts with
  | nil => intro p; rfl
  | cons t ts ih =>
    intro p
    cases t with
    | crlf =>
      show (outerLoop (splitCrlf ('\r' :: '\n' :: termsFlatten ts)) p false).pushes = _
      rw [splitCrlf_cons_crlf, outer_cons_nil, ih (p + 1 + 1)]
      show [p] ++ ((p + 1 + 1) :: lineStarts (p + 1 + 1) ts) =
        p :: (p + 2) :: lineStarts (p + 2) ts
      have harith : p + 1 + 1 = p + 2 := by omega
      rw [harith]
      rfl
    | lf =>
      show (outerLoop (splitCrlf ('\n' :: termsFlatten ts)) p false).pushes = _
      rw [splitCrlf_cons_lf]
      cases hsp : splitCrlf (termsFlatten ts) with
      | nil => exact absurd hsp (splitCrlf_ne_nil _)
      | cons hd tl =>
        simp only [hsp]
        rw [outer_shift, ← hsp, ih (p + 1)]
        show [p] ++ ((p + 1) :: lineStarts (p + 1) ts) =
          p :: (p + 1) :: lineStarts (p + 1) ts
        rfl

/-- The offsets one newline token made of LF/CRLF terminators pushes are
exactly the begin offsets of the lines its terminators open. -/
lemma newlinePushes_terms (ts : List NlTerm) (o : Nat) :
    newlinePushes o (termsFlatten ts) = lineStarts o ts := by
  unfold newlinePushes
  cases ts with
  | nil => rfl
  | cons t ts =>
    cases t with
    | crlf =>
      show (outerLoop (splitCrlf ('\r' :: '\n' :: termsFlatten ts)) o true).pushes = _
      rw [splitCrlf_cons_crlf, outer_cons_nil, outer_false ts (o + 1 + 1)]
      show [] ++ ((o + 1 + 1) :: lineStarts (o + 1 + 1) ts) =
        (o + 2) :: lineStarts (o + 2) ts
      have harith : o + 1 + 1 = o + 2 := by omega
      rw [harith]
      rfl
    | lf =>
      show (outerLoop (splitCrlf ('\n' :: termsFlatten ts)) o true).pushes = _
      rw [splitCrlf_cons_lf]
      cases hsp : splitCrlf (termsFlatten ts) with
      | nil => exact absurd hsp (splitCrlf_ne_nil _)
      | cons hd tl =>
        simp only [hsp]
        rw [outer_shift, ← hsp, outer_false ts (o + 1)]
        rfl

/-- C5. When the line-boundary table is built from a token stream whose
newline tokens are arbitrary mixes of LF and CRLF terminators, each CRLF
pair contributes exactly one new line-start offset pointing just past the
pair (never two), each LF — including each blank line's — contributes
exactly one, and the resulting table is `0` (line 0's implicit start)
followed by, for each token in order, the absolute byte offset at which
each line opened by that token begins. -/
theorem c5_line_boundaries (toks : List (Nat × List NlTerm)) :
    lineIndexNew (toks.map fun ot => ⟨ot.1, termsFlatten ot.2⟩) =
      0 :: (toks.map fun ot => lineStarts ot.1 ot.2).flatten := by
  unfold lineIndexNew
  congr 1
  induction toks with
  | nil => rfl
  | cons ot rest ih =>
    simp only [List.map_cons, List.flatten_cons]
    rw [ih, newlinePushes_terms]
